import Mathlib

/-!
Shallow embedding of `src/tools/download_resumable.py` (the function
`download_file_resumable`) and proofs about its behaviour.

The Python routine probes the destination file, issues a (possibly ranged)
GET, classifies the response status, streams the body in chunks to an open
file handle inside a `with` block, prints per-chunk progress, and catches
`KeyboardInterrupt` / `Exception` around the whole negotiation-and-stream
section.  The embedding makes the external world explicit: whether the
destination exists, whether reading its size succeeds, what the HTTP layer
returns (a response or a raised exception), whether `open` raises, and the
sequence of stream events (chunks, or an exception raised mid-iteration).
-/

namespace DownloadResumable

/-- The two classes of exception the Python code distinguishes in its
`except` clauses: `KeyboardInterrupt` and every other `Exception`. -/
inductive Exn where
  | keyboardInterrupt
  | exception
deriving DecidableEq

/-- One event observed while iterating `response.iter_content`: either a
chunk of `n` bytes arrives, or an exception is raised mid-iteration
(network failure or user interrupt). -/
inductive Event where
  | chunk (n : Nat)
  | raise (e : Exn)
deriving DecidableEq

/-- The HTTP response as the code reads it: `status_code`, the optional
`content-length` header, and the body's stream of events. -/
structure Response where
  status : Nat
  contentLength : Option Nat
  body : List Event
deriving DecidableEq

/-- Outcome of `requests.get`: a response, or a raised exception. -/
inductive GetResult where
  | raised (e : Exn)
  | ok (r : Response)
deriving DecidableEq

/-- The environment of one invocation: whether `os.path.exists(dest_path)`
holds, whether `os.path.getsize` succeeds (it can raise `OSError`),
the size it reports, the result of `requests.get`, and whether
`open(dest_path, mode)` raises. -/
structure Inputs where
  fileExists : Bool
  probeOk : Bool
  initSize : Nat
  getResult : GetResult
  openExn : Option Exn
deriving DecidableEq

/-- Reason attached to a failed outcome: the `HTTPError` raised by
`raise_for_status` for a given status code, or any other exception. -/
inductive Reason where
  | httpStatus (code : Nat)
  | exception
deriving DecidableEq

/-- The three terminal statuses of the transfer contract. -/
inductive TerminalStatus where
  | completed
  | interrupted
  | failed (r : Reason)
deriving DecidableEq

/-- File open mode: `'wb'` (truncate/create) or `'ab'` (append). -/
inductive Mode where
  | wb
  | ab
deriving DecidableEq

/-- One operation performed on the destination file. -/
inductive FileOp where
  | openFile (m : Mode)
  | write (n : Nat)
  | close
deriving DecidableEq

/-- One progress line as the source prints it per chunk: the percentage
value shown (the source always prints one) and the running byte count. -/
structure Progress where
  percent : ℚ
  currentBytes : Nat
deriving DecidableEq

/-- How the chunk loop ended: body exhausted, `KeyboardInterrupt`, or
another exception. -/
inductive ExitKind where
  | done
  | interrupted
  | failed
deriving DecidableEq

/-- Result of the chunk loop: file writes performed, final value of
`current_size`, progress events emitted, and how the loop ended. -/
structure StreamOut where
  ops : List FileOp
  counter : Nat
  progress : List Progress
  exit : ExitKind
deriving DecidableEq

/-- The `for chunk in response.iter_content(...)` loop.  A non-empty chunk
is written, `current_size` is incremented by its length, and a progress
line is printed with `percent = current_size / total_size * 100` when
`total_size > 0`, else `0`.  Empty chunks are skipped (`if chunk:`).
An exception raised mid-iteration ends the loop. -/
def streamLoop (total : Nat) : List Event → Nat → StreamOut
  | [], cur => ⟨[], cur, [], .done⟩
  | .raise .keyboardInterrupt :: _, cur => ⟨[], cur, [], .interrupted⟩
  | .raise .exception :: _, cur => ⟨[], cur, [], .failed⟩
  | .chunk n :: rest, cur =>
    if n = 0 then
      streamLoop total rest cur
    else
      let cur' := cur + n
      let pct : ℚ := if 0 < total then (cur' : ℚ) / (total : ℚ) * 100 else 0
      let out := streamLoop total rest cur'
      ⟨.write n :: out.ops, out.counter, ⟨pct, cur'⟩ :: out.progress, out.exit⟩

/-- Observable outcome of one invocation: the terminal status (`none`
models an exception propagating out of the function, which can only
happen before the `try` block), the file-operation trace, the progress
events, the computed `total_size`, and the final `current_size`. -/
structure RunResult where
  result : Option TerminalStatus
  trace : List FileOp
  progress : List Progress
  total : Nat
  finalCounter : Nat
deriving DecidableEq

/-- Embedding of `download_file_resumable`.  Mirrors the source:
probe (`os.path.exists` / `os.path.getsize`, outside the `try`), the
ranged GET, status classification (416 early return; 206 keeps the
probed size and mode; 200 with a prior partial file resets
`current_size` to 0 and the mode to `'wb'`; any other status calls
`raise_for_status`, which raises exactly for 4xx/5xx), `total_size`
from `content-length` (plus `current_size` for 206), and the `with
open` streaming block whose handle is closed on every exit.
`KeyboardInterrupt` inside the `try` maps to the interrupted outcome,
any other exception to the failed outcome, and a normal end of the
stream to the completed outcome. -/
def download_file_resumable (inp : Inputs) : RunResult :=
  if inp.fileExists && !inp.probeOk then
    ⟨none, [], [], 0, 0⟩
  else
    let current0 : Nat := if inp.fileExists then inp.initSize else 0
    let mode0 : Mode := if inp.fileExists then .ab else .wb
    match inp.getResult with
    | .raised .keyboardInterrupt => ⟨some .interrupted, [], [], 0, current0⟩
    | .raised .exception => ⟨some (.failed .exception), [], [], 0, current0⟩
    | .ok resp =>
      if resp.status = 416 then
        ⟨some .completed, [], [], 0, current0⟩
      else
        let cm : Nat × Mode :=
          if resp.status = 206 then (current0, mode0)
          else if resp.status = 200 then
            if 0 < current0 then (0, .wb) else (current0, mode0)
          else (current0, mode0)
        if resp.status ≠ 206 ∧ resp.status ≠ 200 ∧ 400 ≤ resp.status ∧ resp.status < 600 then
          ⟨some (.failed (.httpStatus resp.status)), [], [], 0, cm.1⟩
        else
          let total : Nat :=
            if resp.status = 206 then resp.contentLength.getD 0 + cm.1
            else resp.contentLength.getD 0
          match inp.openExn with
          | some .keyboardInterrupt => ⟨some .interrupted, [], [], total, cm.1⟩
          | some .exception => ⟨some (.failed .exception), [], [], total, cm.1⟩
          | none =>
            let out := streamLoop total resp.body cm.1
            ⟨some (match out.exit with
                   | .done => .completed
                   | .interrupted => .interrupted
                   | .failed => .failed .exception),
             .openFile cm.2 :: out.ops ++ [.close], out.progress, total, out.counter⟩

/-- Sizes of the write operations in a file trace, in order. -/
def writesOf (t : List FileOp) : List Nat :=
  t.filterMap fun op =>
    match op with
    | .write n => some n
    | _ => none

/-- Effect of a file trace on the destination file's size: opening in
`'wb'` truncates to 0, opening in `'ab'` keeps the size, a write adds
its length, closing changes nothing. -/
def applyOps (sz : Nat) : List FileOp → Nat
  | [] => sz
  | .openFile .wb :: rest => applyOps 0 rest
  | .openFile .ab :: rest => applyOps sz rest
  | .write n :: rest => applyOps (sz + n) rest
  | .close :: rest => applyOps sz rest

/-- Bytes on disk at the destination before the invocation. -/
def initialDisk (inp : Inputs) : Nat :=
  if inp.fileExists then inp.initSize else 0

/-- Bytes on disk at the destination after the invocation. -/
def finalFileSize (inp : Inputs) : Nat :=
  applyOps (initialDisk inp) (download_file_resumable inp).trace

/-- First exception raised in a body's event stream, if any. -/
def firstExn : List Event → Option Exn
  | [] => none
  | .chunk _ :: rest => firstExn rest
  | .raise e :: _ => some e

/-- A status that reaches the streaming stage: not 416 (early return) and
not one that makes `raise_for_status` raise (an unrecognised 4xx/5xx). -/
def reachesStream (s : Nat) : Prop :=
  s ≠ 416 ∧ ¬(s ≠ 206 ∧ s ≠ 200 ∧ 400 ≤ s ∧ s < 600)

/-- Chunk sizes `response.iter_content(chunk_size=C)` yields for a body of
`S` bytes: full chunks of `C` bytes, then the remainder.  Modelled from
the library's documented behaviour with `stream=True`; defined with fuel
(one byte per chunk at minimum, so `S` steps suffice when `C > 0`). -/
def chunkLensAux (C : Nat) : Nat → Nat → List Nat
  | 0, _ => []
  | fuel + 1, S =>
    if S = 0 then []
    else min C S :: chunkLensAux C fuel (S - min C S)

/-- Chunk sizes for a body of `S` bytes with chunk size `C`. -/
def chunkLens (C S : Nat) : List Nat :=
  chunkLensAux C S S

/-- File mode chosen by the probe: `'ab'` when the destination exists,
`'wb'` otherwise. -/
def mode0 (inp : Inputs) : Mode :=
  if inp.fileExists then .ab else .wb

/-- `current_size` and `mode` after the status classification: a 206 keeps
the probed values, a 200 with a prior partial file resets them to
`(0, 'wb')`, anything else keeps the probed values. -/
def classified (inp : Inputs) (resp : Response) : Nat × Mode :=
  if resp.status = 206 then (initialDisk inp, mode0 inp)
  else if resp.status = 200 then
    if 0 < initialDisk inp then (0, .wb) else (initialDisk inp, mode0 inp)
  else (initialDisk inp, mode0 inp)

/-- `total_size` as the code computes it: the declared `content-length`
(0 when absent), plus `current_size` for a 206 response. -/
def totalOf (inp : Inputs) (resp : Response) : Nat :=
  if resp.status = 206 then resp.contentLength.getD 0 + (classified inp resp).1
  else resp.contentLength.getD 0

/-- A fresh-start invocation (no existing file) whose server answers 200
with Content-Length `S` and a body delivered in chunks of size `C`. -/
def freshInput (S C : Nat) : Inputs :=
  ⟨false, true, 0, .ok ⟨200, some S, (chunkLens C S).map .chunk⟩, none⟩

/-- A restart invocation: destination holds `K` bytes, server ignores the
Range header and answers 200 with Content-Length `L`, body delivered as
the chunk lengths `ls`. -/
def restartInput (K L : Nat) (ls : List Nat) : Inputs :=
  ⟨true, true, K, .ok ⟨200, some L, ls.map .chunk⟩, none⟩

/-- A resume invocation: destination exists with `K` bytes, server answers
206 with Content-Length `L` and body `body`. -/
def resumeInput (K L : Nat) (body : List Event) : Inputs :=
  ⟨true, true, K, .ok ⟨206, some L, body⟩, none⟩

/-! ### Lemmas about the chunk loop -/

theorem streamLoop_exit (total : Nat) :
    ∀ (body : List Event) (cur : Nat),
      (streamLoop total body cur).exit =
        match firstExn body with
        | none => .done
        | some .keyboardInterrupt => .interrupted
        | some .exception => .failed := by
  intro body
  induction body with
  | nil => intro cur; rfl
  | cons ev rest ih =>
    intro cur
    cases ev with
    | chunk n =>
      by_cases hn : n = 0
      · simp [streamLoop, hn, firstExn, ih]
      · simp [streamLoop, hn, firstExn, ih]
    | raise e => cases e <;> rfl

theorem streamLoop_ops_writes (total : Nat) :
    ∀ (body : List Event) (cur : Nat),
      ∃ ns : List Nat, (streamLoop total body cur).ops = ns.map FileOp.write := by
  intro body
  induction body with
  | nil => intro cur; exact ⟨[], rfl⟩
  | cons ev rest ih =>
    intro cur
    cases ev with
    | chunk n =>
      by_cases hn : n = 0
      · simpa [streamLoop, hn] using ih cur
      · obtain ⟨ns, hns⟩ := ih (cur + n)
        exact ⟨n :: ns, by simp [streamLoop, hn, hns]⟩
    | raise e => cases e <;> exact ⟨[], rfl⟩

theorem streamLoop_counter (total : Nat) :
    ∀ (body : List Event) (cur : Nat),
      (streamLoop total body cur).counter =
        cur + (writesOf (streamLoop total body cur).ops).sum := by
  intro body
  induction body with
  | nil => intro cur; simp [streamLoop, writesOf]
  | cons ev rest ih =>
    intro cur
    cases ev with
    | chunk n =>
      by_cases hn : n = 0
      · simp [streamLoop, hn, ih cur]
      · simp only [streamLoop, hn, if_neg]
        simp [writesOf, ih (cur + n)]
        omega
    | raise e => cases e <;> simp [streamLoop, writesOf]

theorem writesOf_write_cons (m : Nat) (ops : List FileOp) :
    writesOf (FileOp.write m :: ops) = m :: writesOf ops := by
  simp [writesOf, List.filterMap_cons]

theorem streamLoop_writes_pos (total : Nat) :
    ∀ (body : List Event) (cur : Nat),
      ∀ n ∈ writesOf (streamLoop total body cur).ops, 0 < n := by
  intro body
  induction body with
  | nil => intro cur n hn; simp [streamLoop, writesOf] at hn
  | cons ev rest ih =>
    intro cur n hn
    cases ev with
    | chunk m =>
      by_cases hm : m = 0
      · exact ih cur n (by simpa [streamLoop, hm] using hn)
      · rw [show (streamLoop total (Event.chunk m :: rest) cur).ops =
              FileOp.write m :: (streamLoop total rest (cur + m)).ops by
            simp [streamLoop, hm]] at hn
        rw [writesOf_write_cons] at hn
        rcases List.mem_cons.mp hn with h | h
        · omega
        · exact ih (cur + m) n h
    | raise e => cases e <;> simp [streamLoop, writesOf] at hn

theorem streamLoop_chunks (total : Nat) (ls : List Nat) (hpos : ∀ n ∈ ls, 0 < n) :
    ∀ cur : Nat,
      (streamLoop total (ls.map .chunk) cur).ops = ls.map FileOp.write ∧
      (streamLoop total (ls.map .chunk) cur).exit = .done := by
  induction ls with
  | nil => intro cur; exact ⟨rfl, rfl⟩
  | cons n rest ih =>
    intro cur
    have hn : n ≠ 0 := by have := hpos n (by simp); omega
    have ihr := ih (fun m hm => hpos m (by simp [hm])) (cur + n)
    constructor
    · simp [streamLoop, hn, ihr.1]
    · simp [streamLoop, hn, ihr.2]

theorem streamLoop_progress_percent (total : Nat) :
    ∀ (body : List Event) (cur : Nat),
      ∀ p ∈ (streamLoop total body cur).progress,
        (total = 0 → p.percent = 0) ∧
        (0 < total → p.percent = (p.currentBytes : ℚ) / (total : ℚ) * 100) := by
  intro body
  induction body with
  | nil => intro cur p hp; simp [streamLoop] at hp
  | cons ev rest ih =>
    intro cur p hp
    cases ev with
    | chunk n =>
      by_cases hn : n = 0
      · exact ih cur p (by simpa [streamLoop, hn] using hp)
      · rw [show (streamLoop total (Event.chunk n :: rest) cur).progress =
              ⟨if 0 < total then ((cur + n : Nat) : ℚ) / (total : ℚ) * 100 else 0,
                cur + n⟩ :: (streamLoop total rest (cur + n)).progress by
            simp [streamLoop, hn]] at hp
        rcases List.mem_cons.mp hp with h | h
        · subst h
          constructor
          · intro h0; simp [h0]
          · intro h0; simp [h0]
        · exact ih (cur + n) p h
    | raise e => cases e <;> simp [streamLoop] at hp

/-! ### Lemmas about file traces -/

theorem writesOf_map_write (ns : List Nat) : writesOf (ns.map FileOp.write) = ns := by
  induction ns with
  | nil => rfl
  | cons n rest ih => simp [writesOf, List.filterMap_cons] at ih ⊢; exact ih

theorem writesOf_open_close (m : Mode) (ops : List FileOp) :
    writesOf (FileOp.openFile m :: ops ++ [FileOp.close]) = writesOf ops := by
  simp [writesOf, List.filterMap_cons, List.filterMap_append]

theorem applyOps_map_write (ns : List Nat) :
    ∀ sz : Nat, applyOps sz (ns.map FileOp.write) = sz + ns.sum := by
  induction ns with
  | nil => intro sz; simp [applyOps]
  | cons n rest ih => intro sz; simp [applyOps, ih]; omega

theorem applyOps_append (l₁ l₂ : List FileOp) :
    ∀ sz : Nat, applyOps sz (l₁ ++ l₂) = applyOps (applyOps sz l₁) l₂ := by
  induction l₁ with
  | nil => intro sz; rfl
  | cons op rest ih =>
    intro sz
    cases op with
    | openFile m => cases m <;> simp [applyOps, ih]
    | write n => simp [applyOps, ih]
    | close => simp [applyOps, ih]

/-! ### Lemmas about chunk arithmetic -/

theorem chunkLensAux_zero (C : Nat) : ∀ fuel, chunkLensAux C fuel 0 = [] := by
  intro fuel
  cases fuel with
  | zero => rfl
  | succ f => simp [chunkLensAux]

theorem chunkLensAux_spec (C : Nat) (hC : 0 < C) :
    ∀ fuel S, S ≤ fuel →
      chunkLensAux C fuel S =
        List.replicate (S / C) C ++ (if S % C = 0 then ([] : List Nat) else [S % C]) := by
  intro fuel
  induction fuel with
  | zero =>
    intro S hS
    have : S = 0 := Nat.le_zero.mp hS
    subst this
    simp [chunkLensAux]
  | succ f ih =>
    intro S hS
    by_cases h0 : S = 0
    · subst h0; simp [chunkLensAux]
    · rw [show chunkLensAux C (f + 1) S = min C S :: chunkLensAux C f (S - min C S) by
          simp [chunkLensAux, h0]]
      by_cases hCS : C ≤ S
      · have hmin : min C S = C := Nat.min_eq_left hCS
        have hrec : S - C ≤ f := by omega
        rw [hmin, ih (S - C) hrec]
        have hdiv : S / C = (S - C) / C + 1 := Nat.div_eq_sub_div hC hCS
        have hmod : S % C = (S - C) % C := Nat.mod_eq_sub_mod hCS
        rw [hdiv, hmod, List.replicate_succ]
        simp
      · have hlt : S < C := Nat.lt_of_not_le hCS
        have hmin : min C S = S := Nat.min_eq_right (Nat.le_of_lt hlt)
        rw [hmin, Nat.sub_self, chunkLensAux_zero]
        rw [Nat.div_eq_of_lt hlt, Nat.mod_eq_of_lt hlt]
        simp [h0]

theorem chunkLens_spec (C S : Nat) (hC : 0 < C) :
    chunkLens C S =
      List.replicate (S / C) C ++ (if S % C = 0 then ([] : List Nat) else [S % C]) :=
  chunkLensAux_spec C hC S S le_rfl

theorem chunkLens_pos (C S : Nat) (hC : 0 < C) : ∀ n ∈ chunkLens C S, 0 < n := by
  intro n hn
  rw [chunkLens_spec C S hC] at hn
  rcases List.mem_append.mp hn with h | h
  · have := (List.eq_of_mem_replicate h)
    omega
  · by_cases hm : S % C = 0
    · simp [hm] at h
    · simp [hm] at h
      omega

theorem ceil_div_eq (C S : Nat) (hC : 0 < C) (hS : 0 < S) :
    (S + C - 1) / C = S / C + (if S % C = 0 then 0 else 1) := by
  have hqr : C * (S / C) + S % C = S := Nat.div_add_mod S C
  have hr : S % C < C := Nat.mod_lt _ hC
  by_cases hm : S % C = 0
  · have h1 : S + C - 1 = C - 1 + C * (S / C) := by omega
    rw [hm, h1, Nat.add_mul_div_left _ _ hC, Nat.div_eq_of_lt (by omega)]
    simp
  · have hmul : C * (S / C + 1) = C * (S / C) + C := Nat.mul_succ C (S / C)
    have h1 : S + C - 1 = S % C - 1 + C * (S / C + 1) := by omega
    rw [h1, Nat.add_mul_div_left _ _ hC, Nat.div_eq_of_lt (by omega)]
    simp [hm]

theorem chunkLens_length (C S : Nat) (hC : 0 < C) (hS : 0 < S) :
    (chunkLens C S).length = (S + C - 1) / C := by
  rw [chunkLens_spec C S hC, ceil_div_eq C S hC hS]
  by_cases hm : S % C = 0 <;> simp [hm]

theorem chunkLens_shape (C S : Nat) (hC : 0 < C) (hS : 0 < S) :
    ∃ l₀ x, chunkLens C S = l₀ ++ [x] ∧ (∀ y ∈ l₀, y = C) ∧
      x = if S % C = 0 then C else S % C := by
  rw [chunkLens_spec C S hC]
  by_cases hm : S % C = 0
  · have hq : 0 < S / C := by
      have hqr : C * (S / C) + S % C = S := Nat.div_add_mod S C
      rcases Nat.eq_zero_or_pos (S / C) with h | h
      · exfalso; rw [h] at hqr; omega
      · exact h
    refine ⟨List.replicate (S / C - 1) C, C, ?_, ?_, ?_⟩
    · rw [show S / C = (S / C - 1) + 1 by omega, List.replicate_succ']
      simp [hm]
    · intro y hy; exact List.eq_of_mem_replicate hy
    · simp [hm]
  · exact ⟨List.replicate (S / C) C, S % C, by simp [hm],
      fun y hy => List.eq_of_mem_replicate hy, by simp [hm]⟩

/-! ### Run-level evaluation lemmas -/

theorem probe_guard_false (fe pk : Bool) (hwf : fe = true → pk = true) :
    (fe && !pk) = false := by
  cases fe with
  | false => rfl
  | true => simp [hwf rfl]

theorem result_stream (inp : Inputs) (resp : Response)
    (hwf : inp.fileExists = true → inp.probeOk = true)
    (hg : inp.getResult = .ok resp)
    (hrs : reachesStream resp.status)
    (ho : inp.openExn = none) :
    (download_file_resumable inp).result =
      some (match firstExn resp.body with
            | none => .completed
            | some .keyboardInterrupt => .interrupted
            | some .exception => .failed .exception) := by
  obtain ⟨fe, pk, k, gr, oe⟩ := inp
  simp only at hg ho hwf
  subst hg
  subst ho
  have hguard := probe_guard_false fe pk hwf
  simp only [download_file_resumable, hguard, Bool.false_eq_true, if_false,
    hrs.1, hrs.2, if_neg, ite_false]
  rw [streamLoop_exit]
  cases hf : firstExn resp.body with
  | none => rfl
  | some e => cases e <;> rfl

theorem result_isSome (inp : Inputs)
    (hwf : inp.fileExists = true → inp.probeOk = true) :
    ((download_file_resumable inp).result).isSome = true := by
  obtain ⟨fe, pk, k, gr, oe⟩ := inp
  simp only at hwf
  have hguard := probe_guard_false fe pk hwf
  cases gr with
  | raised e =>
    cases e <;> simp [download_file_resumable, hguard]
  | ok resp =>
    by_cases h416 : resp.status = 416
    · simp [download_file_resumable, hguard, h416]
    · by_cases hbad : resp.status ≠ 206 ∧ resp.status ≠ 200 ∧
          400 ≤ resp.status ∧ resp.status < 600
      · simp [download_file_resumable, hguard, h416, hbad]
      · cases oe with
        | none =>
          have := result_stream ⟨fe, pk, k, .ok resp, none⟩ resp hwf rfl ⟨h416, hbad⟩ rfl
          rw [this]
          rfl
        | some e =>
          cases e <;> simp [download_file_resumable, hguard, h416, hbad]

theorem result_416 (inp : Inputs) (resp : Response)
    (hwf : inp.fileExists = true → inp.probeOk = true)
    (hg : inp.getResult = .ok resp)
    (hs : resp.status = 416) :
    download_file_resumable inp =
      ⟨some .completed, [], [], 0, if inp.fileExists then inp.initSize else 0⟩ := by
  obtain ⟨fe, pk, k, gr, oe⟩ := inp
  simp only at hg hwf
  subst hg
  have hguard := probe_guard_false fe pk hwf
  simp [download_file_resumable, hguard, hs]

theorem run_stream_eq (inp : Inputs) (resp : Response)
    (hwf : inp.fileExists = true → inp.probeOk = true)
    (hg : inp.getResult = .ok resp)
    (hrs : reachesStream resp.status)
    (ho : inp.openExn = none) :
    download_file_resumable inp =
      ⟨some (match (streamLoop (totalOf inp resp) resp.body (classified inp resp).1).exit with
             | .done => .completed
             | .interrupted => .interrupted
             | .failed => .failed .exception),
       .openFile (classified inp resp).2 ::
         (streamLoop (totalOf inp resp) resp.body (classified inp resp).1).ops ++
         [.close],
       (streamLoop (totalOf inp resp) resp.body (classified inp resp).1).progress,
       totalOf inp resp,
       (streamLoop (totalOf inp resp) resp.body (classified inp resp).1).counter⟩ := by
  obtain ⟨fe, pk, k, gr, oe⟩ := inp
  simp only at hg ho hwf
  subst hg
  subst ho
  have hguard := probe_guard_false fe pk hwf
  simp [download_file_resumable, hguard, hrs.1, hrs.2, classified, totalOf,
    mode0, initialDisk]

theorem run_error_status_eq (inp : Inputs) (resp : Response)
    (hwf : inp.fileExists = true → inp.probeOk = true)
    (hg : inp.getResult = .ok resp)
    (h4 : 400 ≤ resp.status) (h6 : resp.status < 600)
    (h416 : resp.status ≠ 416) :
    download_file_resumable inp =
      ⟨some (.failed (.httpStatus resp.status)), [], [], 0, initialDisk inp⟩ := by
  obtain ⟨fe, pk, k, gr, oe⟩ := inp
  simp only at hg hwf
  subst hg
  have hguard := probe_guard_false fe pk hwf
  have h206 : resp.status ≠ 206 := by omega
  have h200 : resp.status ≠ 200 := by omega
  simp [download_file_resumable, hguard, h416, h206, h200, h4, h6, initialDisk]

theorem streamLoop_map_chunk (total : Nat) (ls : List Nat) :
    ∀ cur, (streamLoop total (ls.map .chunk) cur).ops =
        (ls.filter (fun n => !(n == 0))).map FileOp.write ∧
      (streamLoop total (ls.map .chunk) cur).exit = .done := by
  induction ls with
  | nil => intro cur; exact ⟨rfl, rfl⟩
  | cons n rest ih =>
    intro cur
    by_cases hn : n = 0
    · subst hn
      simpa [streamLoop, List.filter_cons] using ih cur
    · have ihr := ih (cur + n)
      constructor
      · simp [streamLoop, hn, List.filter_cons, ihr.1]
      · simp [streamLoop, hn, ihr.2]

theorem sum_filter_nonzero (ls : List Nat) :
    (ls.filter (fun n => !(n == 0))).sum = ls.sum := by
  induction ls with
  | nil => rfl
  | cons n rest ih =>
    by_cases hn : n = 0
    · subst hn; simp [List.filter_cons, ih]
    · simp [List.filter_cons, hn, ih]

/-! ### Claim theorems -/

/-- C1 counterexample: an invocation in which the destination exists but
reading its size raises returns no terminal status at all — the
exception from `os.path.getsize` propagates out of the operation
(the probe sits before the `try` block), refuting the claim that every
invocation returns one of the three terminal statuses. -/
theorem c1_counterexample :
    (download_file_resumable
        ⟨true, false, 1, .ok ⟨206, some 4, [.chunk 4]⟩, none⟩).result = none :=
  rfl

/-- C1 amended: every invocation whose local-state probe reads the existing
size without raising ends in exactly one of the three terminal statuses:
`completed` when the stream ends normally or the server answers 416,
`interrupted` when a `KeyboardInterrupt` arrives during negotiation or
mid-stream, and `failed` otherwise (unrecognised 4xx/5xx, a network
exception during negotiation, or an exception mid-stream). -/
theorem c1_terminal_status (inp : Inputs)
    (hwf : inp.fileExists = true → inp.probeOk = true) :
    (∃ s, (download_file_resumable inp).result = some s) ∧
    (∀ resp, inp.getResult = .ok resp → resp.status = 416 →
      (download_file_resumable inp).result = some .completed) ∧
    (∀ resp, inp.getResult = .ok resp → reachesStream resp.status →
      inp.openExn = none → firstExn resp.body = none →
      (download_file_resumable inp).result = some .completed) ∧
    (∀ resp, inp.getResult = .ok resp → reachesStream resp.status →
      inp.openExn = none → firstExn resp.body = some .keyboardInterrupt →
      (download_file_resumable inp).result = some .interrupted) ∧
    (inp.getResult = .raised .keyboardInterrupt →
      (download_file_resumable inp).result = some .interrupted) ∧
    (∀ resp, inp.getResult = .ok resp → reachesStream resp.status →
      inp.openExn = none → firstExn resp.body = some .exception →
      (download_file_resumable inp).result = some (.failed .exception)) ∧
    (inp.getResult = .raised .exception →
      (download_file_resumable inp).result = some (.failed .exception)) := by
  refine ⟨?_, ?_, ?_, ?_, ?_, ?_, ?_⟩
  · exact Option.isSome_iff_exists.mp (result_isSome inp hwf)
  · intro resp hg hs
    rw [result_416 inp resp hwf hg hs]
  · intro resp hg hrs ho hb
    rw [result_stream inp resp hwf hg hrs ho, hb]
  · intro resp hg hrs ho hb
    rw [result_stream inp resp hwf hg hrs ho, hb]
  · intro hg
    obtain ⟨fe, pk, k, gr, oe⟩ := inp
    simp only at hg hwf
    subst hg
    simp [download_file_resumable, probe_guard_false fe pk hwf]
  · intro resp hg hrs ho hb
    rw [result_stream inp resp hwf hg hrs ho, hb]
  · intro hg
    obtain ⟨fe, pk, k, gr, oe⟩ := inp
    simp only at hg hwf
    subst hg
    simp [download_file_resumable, probe_guard_false fe pk hwf]

theorem c1_terminal_status_witness :
    (download_file_resumable ⟨false, true, 0, .ok ⟨200, some 3, [.chunk 3]⟩, none⟩).result =
      some .completed :=
  (c1_terminal_status ⟨false, true, 0, .ok ⟨200, some 3, [.chunk 3]⟩, none⟩
      (by simp)).2.2.1 ⟨200, some 3, [.chunk 3]⟩ rfl
    (by simp [reachesStream]) rfl rfl

/-- C5: when the server answers 416, the invocation terminates with the
completed status before the file is ever opened: the trace is empty, no
progress event is emitted, and the destination file's size is exactly
what the probe found. -/
theorem c5_range_not_satisfiable (inp : Inputs) (resp : Response)
    (hwf : inp.fileExists = true → inp.probeOk = true)
    (hg : inp.getResult = .ok resp)
    (hs : resp.status = 416) :
    (download_file_resumable inp).result = some .completed ∧
    (download_file_resumable inp).trace = [] ∧
    (download_file_resumable inp).progress = [] ∧
    finalFileSize inp = initialDisk inp := by
  have h := result_416 inp resp hwf hg hs
  refine ⟨by rw [h], by rw [h], by rw [h], ?_⟩
  rw [finalFileSize, h]
  rfl

theorem c5_range_not_satisfiable_witness :
    (download_file_resumable ⟨true, true, 7, .ok ⟨416, some 0, []⟩, none⟩).result =
        some .completed ∧
      (download_file_resumable ⟨true, true, 7, .ok ⟨416, some 0, []⟩, none⟩).trace = [] ∧
      (download_file_resumable ⟨true, true, 7, .ok ⟨416, some 0, []⟩, none⟩).progress = [] ∧
      finalFileSize ⟨true, true, 7, .ok ⟨416, some 0, []⟩, none⟩ =
        initialDisk ⟨true, true, 7, .ok ⟨416, some 0, []⟩, none⟩ :=
  c5_range_not_satisfiable ⟨true, true, 7, .ok ⟨416, some 0, []⟩, none⟩
    ⟨416, some 0, []⟩ (by simp) rfl rfl

/-- C2 counterexample: a 204 response — a status that is neither 200, 206
nor 416 — does not terminate as failed.  `raise_for_status` raises only
for 4xx/5xx, so the code falls through, opens the destination in `'wb'`
mode (truncating it), streams the empty body and reports the completed
outcome. -/
theorem c2_counterexample :
    (download_file_resumable ⟨false, true, 0, .ok ⟨204, none, []⟩, none⟩).result =
        some .completed ∧
      (download_file_resumable ⟨false, true, 0, .ok ⟨204, none, []⟩, none⟩).result ≠
        some (.failed (.httpStatus 204)) ∧
      (download_file_resumable ⟨false, true, 0, .ok ⟨204, none, []⟩, none⟩).trace =
        [.openFile .wb, .close] := by
  refine ⟨rfl, ?_, rfl⟩
  decide

/-- C2 amended: for every response whose status is 4xx/5xx other than 416
(the statuses for which `raise_for_status` actually raises), the transfer
terminates as failed with that status, performs no file operation, and
leaves the destination exactly as the probe found it.  Statuses outside
{200, 206, 416} that are not 4xx/5xx (such as 204) instead fall through
to the streaming stage. -/
theorem c2_error_status (inp : Inputs) (resp : Response)
    (hwf : inp.fileExists = true → inp.probeOk = true)
    (hg : inp.getResult = .ok resp)
    (h4 : 400 ≤ resp.status) (h6 : resp.status < 600)
    (h416 : resp.status ≠ 416) :
    (download_file_resumable inp).result = some (.failed (.httpStatus resp.status)) ∧
    (download_file_resumable inp).trace = [] ∧
    finalFileSize inp = initialDisk inp := by
  have h := run_error_status_eq inp resp hwf hg h4 h6 h416
  refine ⟨by rw [h], by rw [h], ?_⟩
  rw [finalFileSize, h]
  rfl

theorem c2_error_status_witness :
    (download_file_resumable ⟨false, true, 0, .ok ⟨404, none, []⟩, none⟩).result =
        some (.failed (.httpStatus 404)) ∧
      (download_file_resumable ⟨false, true, 0, .ok ⟨404, none, []⟩, none⟩).trace = [] ∧
      finalFileSize ⟨false, true, 0, .ok ⟨404, none, []⟩, none⟩ =
        initialDisk ⟨false, true, 0, .ok ⟨404, none, []⟩, none⟩ :=
  c2_error_status ⟨false, true, 0, .ok ⟨404, none, []⟩, none⟩ ⟨404, none, []⟩
    (by simp) rfl (by decide) (by decide) (by decide)

/-- C8 counterexample: when the destination exists but reading its size
raises (`os.path.getsize` is called outside the `try` block), the
exception propagates out of the invocation — the run produces no
terminal status at all, instead of being treated as CREATE with
`existingBytes = 0`. -/
theorem c8_counterexample :
    (download_file_resumable ⟨true, false, 5, .ok ⟨200, some 3, []⟩, none⟩).result =
      none :=
  rfl

/-- C8 amended: every error arising after the `try` block is entered —
negotiation errors, network errors, an error from `open`, a mid-stream
exception, and cancellation — is recovered and mapped to one of the
three terminal statuses; but an unreadable existing file size is probed
before the `try` block, so that error propagates out of the invocation
instead of being treated as CREATE. -/
theorem c8_recovery (inp : Inputs) :
    ((inp.fileExists = true → inp.probeOk = true) →
      ∃ s, (download_file_resumable inp).result = some s) ∧
    (inp.fileExists = true → inp.probeOk = false →
      (download_file_resumable inp).result = none) := by
  constructor
  · intro hwf
    exact Option.isSome_iff_exists.mp (result_isSome inp hwf)
  · intro hfe hpk
    obtain ⟨fe, pk, k, gr, oe⟩ := inp
    simp only at hfe hpk
    subst hfe
    subst hpk
    simp [download_file_resumable]

theorem c8_recovery_witness :
    (download_file_resumable ⟨true, false, 0, .raised .exception, none⟩).result =
      none :=
  (c8_recovery ⟨true, false, 0, .raised .exception, none⟩).2 rfl rfl

/-- C9: on every exit path the file-operation trace is well scoped — either
the destination was never opened (early 416 return, negotiation failure,
unexpected status, probe crash) or it is opened exactly once, written
some chunks, and closed before the operation returns (the `with` block
closes the handle on normal end, mid-stream exception and cancellation
alike). -/
theorem c9_handle_closed (inp : Inputs) :
    (download_file_resumable inp).trace = [] ∨
    ∃ (m : Mode) (ns : List Nat), (download_file_resumable inp).trace =
      FileOp.openFile m :: ns.map FileOp.write ++ [FileOp.close] := by
  obtain ⟨fe, pk, k, gr, oe⟩ := inp
  cases hguard : (fe && !pk) with
  | true =>
    left
    simp [download_file_resumable, hguard]
  | false =>
    have hwf : fe = true → pk = true := by
      cases fe <;> cases pk <;> simp_all
    cases gr with
    | raised e =>
      cases e <;> (left; simp [download_file_resumable, hguard])
    | ok resp =>
      by_cases h416 : resp.status = 416
      · left
        rw [result_416 ⟨fe, pk, k, .ok resp, oe⟩ resp hwf rfl h416]
      · by_cases hbad : resp.status ≠ 206 ∧ resp.status ≠ 200 ∧
            400 ≤ resp.status ∧ resp.status < 600
        · left
          rw [run_error_status_eq ⟨fe, pk, k, .ok resp, oe⟩ resp hwf rfl
            hbad.2.2.1 hbad.2.2.2 h416]
        · cases oe with
          | some e =>
            cases e <;> (left; simp [download_file_resumable, hguard, h416, hbad])
          | none =>
            right
            obtain ⟨ns, hns⟩ := streamLoop_ops_writes
              (totalOf ⟨fe, pk, k, .ok resp, none⟩ resp) resp.body
              (classified ⟨fe, pk, k, .ok resp, none⟩ resp).1
            refine ⟨(classified ⟨fe, pk, k, .ok resp, none⟩ resp).2, ns, ?_⟩
            rw [run_stream_eq ⟨fe, pk, k, .ok resp, none⟩ resp hwf rfl ⟨h416, hbad⟩ rfl]
            rw [← hns]

/-- C3: when the destination already holds `K > 0` bytes and the server
ignores the Range header and answers 200 with Content-Length `L`
(delivered as chunks `ls` summing to `L`), the append intent is
discarded: the file is opened in `'wb'` mode (truncating it), the
resume counter restarts from 0 and ends at `L`, the computed total is
the declared `L`, and the final file size is `L` — not `K + L`. -/
theorem c3_restart_overwrites (K L : Nat) (hK : 0 < K) (ls : List Nat)
    (hsum : ls.sum = L) :
    (download_file_resumable (restartInput K L ls)).total = L ∧
    (download_file_resumable (restartInput K L ls)).trace.head? =
      some (.openFile .wb) ∧
    (download_file_resumable (restartInput K L ls)).finalCounter = L ∧
    finalFileSize (restartInput K L ls) = L ∧
    finalFileSize (restartInput K L ls) ≠ K + L := by
  have hrs : reachesStream 200 := by simp [reachesStream]
  have heq := run_stream_eq (restartInput K L ls) ⟨200, some L, ls.map .chunk⟩
    (by simp [restartInput]) rfl hrs rfl
  have hcl : classified (restartInput K L ls) ⟨200, some L, ls.map .chunk⟩ =
      (0, .wb) := by
    simp [classified, initialDisk, restartInput, mode0, hK]
  have htot : totalOf (restartInput K L ls) ⟨200, some L, ls.map .chunk⟩ = L := by
    simp [totalOf]
  rw [hcl, htot] at heq
  have hops := streamLoop_map_chunk L ls 0
  have hwr : writesOf (streamLoop L (ls.map .chunk) 0).ops =
      ls.filter (fun n => !(n == 0)) := by
    rw [hops.1, writesOf_map_write]
  have hsum' : (ls.filter (fun n => !(n == 0))).sum = L := by
    rw [sum_filter_nonzero, hsum]
  refine ⟨by rw [heq], by rw [heq]; rfl, ?_, ?_, ?_⟩
  · rw [heq]
    show (streamLoop L (ls.map .chunk) 0).counter = L
    rw [streamLoop_counter, hwr, hsum']
    omega
  · rw [finalFileSize, heq]
    show applyOps (initialDisk (restartInput K L ls))
      (.openFile .wb :: (streamLoop L (ls.map .chunk) 0).ops ++ [.close]) = L
    rw [show applyOps (initialDisk (restartInput K L ls))
          (.openFile .wb :: (streamLoop L (ls.map .chunk) 0).ops ++ [.close]) =
        applyOps 0 ((streamLoop L (ls.map .chunk) 0).ops ++ [.close]) from rfl]
    rw [applyOps_append, hops.1, applyOps_map_write]
    simp [applyOps, hsum']
  · intro hcontra
    rw [finalFileSize, heq] at hcontra
    rw [show applyOps (initialDisk (restartInput K L ls))
          (.openFile .wb :: (streamLoop L (ls.map .chunk) 0).ops ++ [.close]) =
        applyOps 0 ((streamLoop L (ls.map .chunk) 0).ops ++ [.close]) from rfl,
      applyOps_append, hops.1, applyOps_map_write] at hcontra
    simp [applyOps, hsum'] at hcontra
    omega

theorem c3_restart_overwrites_witness :
    (download_file_resumable (restartInput 3 5 [2, 3])).total = 5 ∧
      (download_file_resumable (restartInput 3 5 [2, 3])).trace.head? =
        some (.openFile .wb) ∧
      (download_file_resumable (restartInput 3 5 [2, 3])).finalCounter = 5 ∧
      finalFileSize (restartInput 3 5 [2, 3]) = 5 ∧
      finalFileSize (restartInput 3 5 [2, 3]) ≠ 3 + 5 :=
  c3_restart_overwrites 3 5 (by decide) [2, 3] (by decide)

/-- C4: when the destination existed at probe time (the only situation in
which the request carries a Range header, hence the only one in which a
compliant server answers 206) and the server answers 206 with
Content-Length `L`, the destination is opened in append mode and the
computed total size is `existingBytes + L`: the 206 Content-Length is
read as the remaining length, not the full length. -/
theorem c4_resume_append_total (K L : Nat) (body : List Event) :
    (download_file_resumable (resumeInput K L body)).total = K + L ∧
    (download_file_resumable (resumeInput K L body)).trace.head? =
      some (.openFile .ab) := by
  have hrs : reachesStream 206 := by simp [reachesStream]
  have heq := run_stream_eq (resumeInput K L body) ⟨206, some L, body⟩
    (by simp [resumeInput]) rfl hrs rfl
  have hcl : classified (resumeInput K L body) ⟨206, some L, body⟩ = (K, .ab) := by
    simp [classified, initialDisk, resumeInput, mode0]
  have htot : totalOf (resumeInput K L body) ⟨206, some L, body⟩ = L + K := by
    rw [totalOf, if_pos rfl, hcl]
    simp
  rw [hcl, htot] at heq
  refine ⟨?_, by rw [heq]; rfl⟩
  rw [heq]
  show L + K = K + L
  omega

/-- C6 counterexample: with no Content-Length (total recorded as 0), the
per-chunk progress event still carries a percentage value — the source
prints `Progress: 0.0%` — instead of omitting the percentage field. -/
theorem c6_counterexample :
    (download_file_resumable ⟨false, true, 0, .ok ⟨200, none, [.chunk 5]⟩, none⟩).total =
        0 ∧
      (download_file_resumable
          ⟨false, true, 0, .ok ⟨200, none, [.chunk 5]⟩, none⟩).progress =
        [⟨0, 5⟩] := by
  constructor
  · rfl
  · decide

/-- C6 amended: every emitted progress event carries a percentage value;
when the total size is unknown (recorded as 0) that value is the
constant 0 (displayed as `0.0%`) rather than being omitted, and when
the total is known and positive it is the true proportion
`bytesWrittenTotal / totalSizeBytes * 100`. -/
theorem c6_percent_value (inp : Inputs) :
    ∀ p ∈ (download_file_resumable inp).progress,
      ((download_file_resumable inp).total = 0 → p.percent = 0) ∧
      (0 < (download_file_resumable inp).total →
        p.percent = (p.currentBytes : ℚ) /
          (((download_file_resumable inp).total : Nat) : ℚ) * 100) := by
  obtain ⟨fe, pk, k, gr, oe⟩ := inp
  cases hguard : (fe && !pk) with
  | true =>
    intro p hp
    simp [download_file_resumable, hguard] at hp
  | false =>
    have hwf : fe = true → pk = true := by
      cases fe <;> cases pk <;> simp_all
    cases gr with
    | raised e =>
      intro p hp
      cases e <;> simp [download_file_resumable, hguard] at hp
    | ok resp =>
      by_cases h416 : resp.status = 416
      · intro p hp
        rw [result_416 ⟨fe, pk, k, .ok resp, oe⟩ resp hwf rfl h416] at hp
        simp at hp
      · by_cases hbad : resp.status ≠ 206 ∧ resp.status ≠ 200 ∧
            400 ≤ resp.status ∧ resp.status < 600
        · intro p hp
          rw [run_error_status_eq ⟨fe, pk, k, .ok resp, oe⟩ resp hwf rfl
            hbad.2.2.1 hbad.2.2.2 h416] at hp
          simp at hp
        · cases oe with
          | some e =>
            intro p hp
            cases e <;> simp [download_file_resumable, hguard, h416, hbad] at hp
          | none =>
            rw [run_stream_eq ⟨fe, pk, k, .ok resp, none⟩ resp hwf rfl
              ⟨h416, hbad⟩ rfl]
            intro p hp
            exact streamLoop_progress_percent _ resp.body _ p hp

theorem c6_percent_value_witness : (⟨0, 4⟩ : Progress).percent = 0 :=
  (c6_percent_value ⟨false, true, 0, .ok ⟨200, none, [.chunk 4]⟩, none⟩ ⟨0, 4⟩
    (by decide)).1 rfl

/-- C7: a fresh transfer of a resource of `S > 0` bytes with chunk size
`C > 0` performs exactly `⌈S/C⌉ = (S + C - 1) / C` write operations;
every write except the last has size `C`, and the last write has size
`S mod C` (or `C` when `S mod C = 0`). -/
theorem c7_chunking (S C : Nat) (hS : 0 < S) (hC : 0 < C) :
    writesOf (download_file_resumable (freshInput S C)).trace = chunkLens C S ∧
    (writesOf (download_file_resumable (freshInput S C)).trace).length =
      (S + C - 1) / C ∧
    ∃ (l₀ : List Nat) (x : Nat),
      writesOf (download_file_resumable (freshInput S C)).trace = l₀ ++ [x] ∧
      (∀ y ∈ l₀, y = C) ∧ x = if S % C = 0 then C else S % C := by
  have hrs : reachesStream 200 := by simp [reachesStream]
  have heq := run_stream_eq (freshInput S C) ⟨200, some S, (chunkLens C S).map .chunk⟩
    (by simp [freshInput]) rfl hrs rfl
  have hcl : classified (freshInput S C) ⟨200, some S, (chunkLens C S).map .chunk⟩ =
      (0, .wb) := by
    simp [classified, initialDisk, freshInput, mode0]
  have htot : totalOf (freshInput S C) ⟨200, some S, (chunkLens C S).map .chunk⟩ =
      S := by
    simp [totalOf]
  rw [hcl, htot] at heq
  have hops := streamLoop_chunks S (chunkLens C S) (chunkLens_pos C S hC) 0
  have hw : writesOf (download_file_resumable (freshInput S C)).trace =
      chunkLens C S := by
    rw [heq]
    show writesOf (.openFile .wb :: (streamLoop S ((chunkLens C S).map .chunk) 0).ops
      ++ [.close]) = chunkLens C S
    rw [writesOf_open_close, hops.1, writesOf_map_write]
  refine ⟨hw, ?_, ?_⟩
  · rw [hw]
    exact chunkLens_length C S hC hS
  · rw [hw]
    exact chunkLens_shape C S hC hS

theorem c7_chunking_witness :
    writesOf (download_file_resumable (freshInput 5 2)).trace = chunkLens 2 5 ∧
      (writesOf (download_file_resumable (freshInput 5 2)).trace).length =
        (5 + 2 - 1) / 2 :=
  ⟨(c7_chunking 5 2 (by decide) (by decide)).1,
   (c7_chunking 5 2 (by decide) (by decide)).2.1⟩

/-- C10: throughout streaming, the running `current_size` counter equals
the byte offset it started from plus the sum of the lengths of all
chunks written so far; empty chunks are neither written nor counted
(every recorded write is strictly positive); and at the run level the
final counter equals the resume offset fixed at negotiation (the probed
size for a 206 resume, 0 after a restart or fresh start) plus the sum
of all bytes handed to the file handle in this invocation. -/
theorem c10_counter_invariant (total : Nat) (body : List Event) (cur : Nat)
    (inp : Inputs) (resp : Response)
    (hwf : inp.fileExists = true → inp.probeOk = true)
    (hg : inp.getResult = .ok resp)
    (hrs : reachesStream resp.status)
    (ho : inp.openExn = none) :
    (streamLoop total body cur).counter =
      cur + (writesOf (streamLoop total body cur).ops).sum ∧
    (∀ n ∈ writesOf (streamLoop total body cur).ops, 0 < n) ∧
    (download_file_resumable inp).finalCounter =
      (classified inp resp).1 +
        (writesOf (download_file_resumable inp).trace).sum := by
  refine ⟨streamLoop_counter total body cur, streamLoop_writes_pos total body cur, ?_⟩
  rw [run_stream_eq inp resp hwf hg hrs ho]
  show (streamLoop (totalOf inp resp) resp.body (classified inp resp).1).counter =
    (classified inp resp).1 + (writesOf (.openFile (classified inp resp).2 ::
      (streamLoop (totalOf inp resp) resp.body (classified inp resp).1).ops ++
      [.close])).sum
  rw [writesOf_open_close, streamLoop_counter]

theorem c10_counter_invariant_witness :
    (streamLoop 7 [.chunk 3, .chunk 0, .chunk 4] 2).counter =
        2 + (writesOf (streamLoop 7 [.chunk 3, .chunk 0, .chunk 4] 2).ops).sum ∧
      (download_file_resumable ⟨true, true, 2, .ok ⟨206, some 5, [.chunk 3]⟩, none⟩).finalCounter =
        (classified ⟨true, true, 2, .ok ⟨206, some 5, [.chunk 3]⟩, none⟩
            ⟨206, some 5, [.chunk 3]⟩).1 +
          (writesOf (download_file_resumable
            ⟨true, true, 2, .ok ⟨206, some 5, [.chunk 3]⟩, none⟩).trace).sum :=
  ⟨(c10_counter_invariant 7 [.chunk 3, .chunk 0, .chunk 4] 2
      ⟨true, true, 2, .ok ⟨206, some 5, [.chunk 3]⟩, none⟩ ⟨206, some 5, [.chunk 3]⟩
      (by simp) rfl (by simp [reachesStream]) rfl).1,
   (c10_counter_invariant 7 [.chunk 3, .chunk 0, .chunk 4] 2
      ⟨true, true, 2, .ok ⟨206, some 5, [.chunk 3]⟩, none⟩ ⟨206, some 5, [.chunk 3]⟩
      (by simp) rfl (by simp [reachesStream]) rfl).2.2⟩

end DownloadResumable
